import Mathlib

/-!
Verification development for the valutatrade_hub repository.

Shallow embedding of the core data model and operations:
* currency registry (`core/currencies.py`),
* wallet arithmetic (`core/models.py`: `Wallet.deposit` / `Wallet.withdraw`,
  `Portfolio.get_total_value`),
* rate lookup and conversion (`core/usecases.py`: `_pair_rate`,
  `_rate_to_base`, `_ensure_rates_fresh`, `buy`, `sell`, `deposit_usd`,
  `cash_out_usd`, `get_rate`),
* the rate store (`parser_service/storage.py`: `validate_measurement`,
  `append_measurement`, `upsert_rates_snapshot_pair`,
  `is_rates_snapshot_stale`),
* the updater (`parser_service/updater.py`: `RatesUpdater.run_update`).

Modelling conventions:
* Python floats are modelled as `ℚ` (exact arithmetic; the source declares
  IEEE-754 doubles, so results stated here are the exact-real readings of
  the float computations).
* UTC timestamps (second granularity in the source: every datetime is
  `replace(microsecond=0)`) are modelled as `Int` epoch seconds; a
  missing / unparsable timestamp is `Option.none`, mirroring
  `_parse_dt` returning `None`.
* Python dicts keyed by strings are association lists; overwriting an
  existing key keeps its position, a fresh key is appended at the end —
  exactly the insertion-order semantics of Python dicts.
* Raised exceptions are `Except` errors / `Option.none`; the persisted
  state is only replaced on a successful return, mirroring the source,
  where `_save_portfolios` / `_write_json_atomic` run only after all
  in-memory legs succeeded.
* `str.strip()` / `str.upper()` are modelled by `trimStr` / `upStr`
  over ASCII (all currency codes in the repository are ASCII).
-/

namespace ValutaTrade

/-! ### String helpers (`str.strip`, `str.upper`, `str.split("_", 1)`) -/

def upChar (c : Char) : Char :=
  if 'a' ≤ c ∧ c ≤ 'z' then Char.ofNat (c.toNat - 32) else c

def upStr (s : String) : String := String.mk (s.data.map upChar)

def isWs (c : Char) : Bool := c = ' ' ∨ c = '\t' ∨ c = '\n' ∨ c = '\r'

def trimStr (s : String) : String :=
  String.mk (((s.data.dropWhile isWs).reverse.dropWhile isWs).reverse)

/-- `code.strip().upper()` — the normalization applied throughout the source. -/
def normStr (s : String) : String := upStr (trimStr s)

/-! ### Association lists standing for Python dicts -/

def lookupA {α : Type} : List (String × α) → String → Option α
  | [], _ => none
  | kv :: l, k => if kv.1 = k then some kv.2 else lookupA l k

/-- `d[k] = v` on a Python dict: overwrite in place, or append a new key. -/
def setA {α : Type} : List (String × α) → String → α → List (String × α)
  | [], k, v => [(k, v)]
  | kv :: l, k, v => if kv.1 = k then (k, v) :: l else kv :: setA l k v

/-! ### Currency registry (`core/currencies.py`) -/

/-- The fixed `_CURRENCIES` table. -/
def registeredCodes : List String := ["USD", "EUR", "RUB", "BTC", "ETH"]

inductive LedgerError : Type
  /-- a plain `ValueError` (invalid argument / malformed wallet data) -/
  | valueError
  | invalidUserId
  | invalidAmount
  /-- `CurrencyNotFoundError(code)` -/
  | currencyNotFound (code : String)
  /-- the `ValueError` raised by `buy` / `sell` on `code == "USD"` -/
  | cannotTradeUsd
  /-- `ApiRequestError` from `_ensure_rates_fresh` (spec: `StaleRates`) -/
  | staleRates
  /-- `ApiRequestError("rates unavailable")` from `_rate_to_base`
      (spec: `RateUnavailable`) -/
  | rateUnavailable
  /-- `InsufficientFundsError(available, required, code)` -/
  | insufficientFunds (available required code : String)
deriving DecidableEq, Repr

instance {ε α : Type} [DecidableEq ε] [DecidableEq α] : DecidableEq (Except ε α) :=
  fun a b =>
    match a, b with
    | .error e, .error f =>
      if h : e = f then .isTrue (congrArg Except.error h)
      else .isFalse (fun he => h (Except.error.inj he))
    | .ok x, .ok y =>
      if h : x = y then .isTrue (congrArg Except.ok h)
      else .isFalse (fun he => h (Except.ok.inj he))
    | .error _, .ok _ => .isFalse Except.noConfusion
    | .ok _, .error _ => .isFalse Except.noConfusion

/-- `get_currency(code)`: `ValueError` on an empty/blank argument,
`CurrencyNotFoundError` when the normalized key is not registered,
otherwise the registered (normalized) code. -/
def getCurrency (code : String) : Except LedgerError String :=
  if trimStr code = "" then .error .valueError
  else
    let key := normStr code
    if key ∈ registeredCodes then .ok key else .error (.currencyNotFound key)

/-! ### Rate snapshot (`parser_service/storage.py` on-disk record) -/

/-- One stored pair `{rate, updated_at, source}`; `updated_at` is kept
parsed (all writes go through `upsert_rates_snapshot_pair`, which stores
a normalized timestamp). -/
structure PairEntry : Type where
  rate : ℚ
  updated_at : Int
  source : String
deriving DecidableEq, Repr

/-- The snapshot file: `{pairs: {key: PairEntry}, last_refresh}`;
`lastRefresh = none` models a missing or unparsable `last_refresh`. -/
structure Snapshot : Type where
  pairs : List (String × PairEntry)
  lastRefresh : Option Int
deriving DecidableEq, Repr

/-! ### Rate resolution (`core/usecases.py`) -/

/-- `_pair_rate(pairs, f, t)`: direct lookup of `"{f}_{t}"` (kept only if
strictly positive, with no inverse fallback on a non-positive direct
rate), else inverse lookup of `"{t}_{f}"` inverted when positive. -/
def pairRate (pairs : List (String × PairEntry)) (f t : String) : Option ℚ :=
  match lookupA pairs (f ++ "_" ++ t) with
  | some v => if 0 < v.rate then some v.rate else none
  | none =>
    match lookupA pairs (t ++ "_" ++ f) with
    | some v => if 0 < v.rate then some (1 / v.rate) else none
    | none => none

/-- `_rate_to_base(pairs, code, base, pivot)`; `none` models the raised
`ApiRequestError("rates unavailable")`. -/
def rateToBase (pairs : List (String × PairEntry)) (code base pivot : String) :
    Option ℚ :=
  let c := normStr code
  let b := normStr base
  if c = b then some 1
  else if c = pivot then pairRate pairs pivot b
  else if b = pivot then pairRate pairs c pivot
  else
    match pairRate pairs c pivot, pairRate pairs b pivot with
    | some cp, some bp => if bp = 0 then none else some (cp / bp)
    | _, _ => none

/-- `_ensure_rates_fresh()`: empty/missing pairs, a missing or unparsable
`last_refresh`, or `now - last_refresh > TTL` all raise (spec:
`StaleRates`); otherwise the pair map and the refresh time are returned. -/
def ensureRatesFresh (snap : Snapshot) (now ttl : Int) :
    Option (List (String × PairEntry) × Int) :=
  if snap.pairs = [] then none
  else
    match snap.lastRefresh with
    | none => none
    | some lr => if ttl < now - lr then none else some (snap.pairs, lr)

/-! ### Fixed-point rendering (`f"{x:.2f}"` / `f"{x:.4f}"`) -/

/-- `⌊q⌋` computed on the numerator/denominator (den is positive). -/
def ratFloor (q : ℚ) : Int := Int.fdiv q.num q.den

/-- Round to the nearest integer, ties to even — the rounding used by
Python's fixed-point formatting. -/
def roundHalfEven (q : ℚ) : Int :=
  let n := ratFloor q
  if q - n < 1 / 2 then n
  else if 1 / 2 < q - n then n + 1
  else if n % 2 = 0 then n else n + 1

def padZeros (s : String) (d : Nat) : String :=
  if s.length < d then String.mk (List.replicate (d - s.length) '0') ++ s else s

/-- `f"{q:.d f}"`: the decimal rendering of `q` with `d` fractional
digits. -/
def formatFixed (q : ℚ) (d : Nat) : String :=
  let n := roundHalfEven (q * (10 : ℚ) ^ d)
  let m := n.natAbs
  let base := 10 ^ d
  let body :=
    toString (m / base) ++ (if d = 0 then "" else "." ++ padZeros (toString (m % base)) d)
  if n < 0 then "-" ++ body else body

/-- `Wallet.withdraw` / `sell` render BTC and ETH amounts with 4 decimal
places and everything else with 2 (`code in ("BTC", "ETH")`). -/
def displayDp (code : String) : Nat :=
  if code = "BTC" ∨ code = "ETH" then 4 else 2

/-! ### Portfolio store (`core/usecases.py` ledger helpers) -/

/-- One record of `portfolios.json`: `{user_id, wallets: {code: {balance}}}`. -/
structure PRecord : Type where
  user_id : Int
  wallets : List (String × ℚ)
deriving DecidableEq, Repr

/-- `_find_portfolio`: first record whose `user_id` matches. -/
def findP : List PRecord → Int → Option PRecord
  | [], _ => none
  | p :: l, uid => if p.user_id = uid then some p else findP l uid

/-- The `_ensure_portfolio` guarantee on the found record: a `USD`
wallet is created at zero if absent. -/
def ensureUSD (ws : List (String × ℚ)) : List (String × ℚ) :=
  match lookupA ws "USD" with
  | some _ => ws
  | none => ws ++ [("USD", 0)]

/-- The wallet map `_ensure_portfolio` hands to the ledger operation:
the stored record's wallets (with `USD` ensured), or a fresh
`{"USD": 0.0}` map for a new user. -/
def getWallets (ps : List PRecord) (uid : Int) : List (String × ℚ) :=
  match findP ps uid with
  | some p => ensureUSD p.wallets
  | none => [("USD", 0)]

/-- `portfolios[idx] = p` followed by `_save_portfolios`: replace the
first record with this `user_id`, or append a new one. -/
def putPortfolio : List PRecord → Int → List (String × ℚ) → List PRecord
  | [], uid, ws => [⟨uid, ws⟩]
  | p :: l, uid, ws =>
    if p.user_id = uid then ⟨uid, ws⟩ :: l else p :: putPortfolio l uid ws

/-- `entry.get("balance", 0.0)` for a wallet looked up by code. -/
def walletBal (ws : List (String × ℚ)) (code : String) : ℚ :=
  (lookupA ws code).getD 0

/-- Result record of `buy` / `sell` (the fields of the returned dict that
carry ledger state; the echo fields `user_id` / `username` are omitted). -/
structure TradeResult : Type where
  code : String
  amount : ℚ
  rate : ℚ
  /-- `estimated_cost` for `buy`, `estimated_revenue` for `sell` -/
  value : ℚ
  before_balance : ℚ
  after_balance : ℚ
  usd_before : ℚ
  usd_after : ℚ
deriving DecidableEq, Repr

/-- Result record of `deposit_usd` / `cash_out_usd`. -/
structure CashResult : Type where
  amount : ℚ
  before_balance : ℚ
  after_balance : ℚ
deriving DecidableEq, Repr

/-- The persisted portfolio list after an operation: unchanged when the
operation raised (the source saves only on the success path). -/
def finalState {β : Type} (ps : List PRecord) (r : Except LedgerError (β × List PRecord)) :
    List PRecord :=
  match r with
  | .ok (_, ps') => ps'
  | .error _ => ps

/-! ### `buy` (`core/usecases.py` lines 227–301)

Validation order as in the source: `user_id`, `amount`, `get_currency`,
the `code == "USD"` guard, `_ensure_rates_fresh`, `_rate_to_base`; then
the cash wallet is debited through `Wallet("USD", usd_before)` /
`.withdraw(cost)` (a negative stored balance raises `ValueError` at
construction; `withdraw` raises `ValueError` on a non-positive cost and
`InsufficientFundsError` when `cost > balance`), and the `code` wallet
is credited through `Wallet(code, before)` / `.deposit(amount)`. -/
def buy (ps : List PRecord) (snap : Snapshot) (now ttl : Int)
    (user_id : Int) (currency_code : String) (amount : ℚ) :
    Except LedgerError (TradeResult × List PRecord) :=
  if user_id ≤ 0 then .error .invalidUserId
  else if amount ≤ 0 then .error .invalidAmount
  else
    match getCurrency currency_code with
    | .error e => .error e
    | .ok code =>
      if code = "USD" then .error .cannotTradeUsd
      else
        match ensureRatesFresh snap now ttl with
        | none => .error .staleRates
        | some (pairs, _) =>
          match rateToBase pairs code "USD" "USD" with
          | none => .error .rateUnavailable
          | some rate =>
            let cost := amount * rate
            let ws := getWallets ps user_id
            let usd_before := walletBal ws "USD"
            if usd_before < 0 then .error .valueError
            else if cost ≤ 0 then .error .valueError
            else if usd_before < cost then
              .error (.insufficientFunds (formatFixed usd_before 2)
                (formatFixed cost 2) "USD")
            else
              let usd_after := usd_before - cost
              let ws1 := setA ws "USD" usd_after
              let before := walletBal ws1 code
              if before < 0 then .error .valueError
              else
                let after := before + amount
                .ok (⟨code, amount, rate, cost, before, after, usd_before, usd_after⟩,
                  putPortfolio ps user_id (setA ws1 code after))

/-! ### `sell` (`core/usecases.py` lines 304–380)

On a missing `code` wallet the source raises `InsufficientFundsError`
with the literal strings `available="0.0000"` / `"0.00"`; on an existing
wallet, `Wallet(code, before).withdraw(amount)` raises with the rendered
actual balance. The USD wallet is then credited with the revenue. -/
def sell (ps : List PRecord) (snap : Snapshot) (now ttl : Int)
    (user_id : Int) (currency_code : String) (amount : ℚ) :
    Except LedgerError (TradeResult × List PRecord) :=
  if user_id ≤ 0 then .error .invalidUserId
  else if amount ≤ 0 then .error .invalidAmount
  else
    match getCurrency currency_code with
    | .error e => .error e
    | .ok code =>
      if code = "USD" then .error .cannotTradeUsd
      else
        match ensureRatesFresh snap now ttl with
        | none => .error .staleRates
        | some (pairs, _) =>
          match rateToBase pairs code "USD" "USD" with
          | none => .error .rateUnavailable
          | some rate =>
            let revenue := amount * rate
            let ws := getWallets ps user_id
            match lookupA ws code with
            | none =>
              .error (.insufficientFunds
                (if code = "BTC" ∨ code = "ETH" then "0.0000" else "0.00")
                (formatFixed amount (displayDp code)) code)
            | some before =>
              if before < 0 then .error .valueError
              else if before < amount then
                .error (.insufficientFunds (formatFixed before (displayDp code))
                  (formatFixed amount (displayDp code)) code)
              else
                let after := before - amount
                let ws1 := setA ws code after
                let usd_before := walletBal ws1 "USD"
                if usd_before < 0 then .error .valueError
                else if revenue ≤ 0 then .error .valueError
                else
                  let usd_after := usd_before + revenue
                  .ok (⟨code, amount, rate, revenue, before, after, usd_before, usd_after⟩,
                    putPortfolio ps user_id (setA ws1 "USD" usd_after))

/-- `deposit_usd` (`core/usecases.py` lines 383–424). -/
def deposit_usd (ps : List PRecord) (user_id : Int) (amount : ℚ) :
    Except LedgerError (CashResult × List PRecord) :=
  if user_id ≤ 0 then .error .invalidUserId
  else if amount ≤ 0 then .error .invalidAmount
  else
    let ws := getWallets ps user_id
    let before := walletBal ws "USD"
    if before < 0 then .error .valueError
    else
      let after := before + amount
      .ok (⟨amount, before, after⟩, putPortfolio ps user_id (setA ws "USD" after))

/-- `cash_out_usd` (`core/usecases.py` lines 426–467). -/
def cash_out_usd (ps : List PRecord) (user_id : Int) (amount : ℚ) :
    Except LedgerError (CashResult × List PRecord) :=
  if user_id ≤ 0 then .error .invalidUserId
  else if amount ≤ 0 then .error .invalidAmount
  else
    let ws := getWallets ps user_id
    let before := walletBal ws "USD"
    if before < 0 then .error .valueError
    else if before < amount then
      .error (.insufficientFunds (formatFixed before 2) (formatFixed amount 2) "USD")
    else
      let after := before - amount
      .ok (⟨amount, before, after⟩, putPortfolio ps user_id (setA ws "USD" after))

/-- `get_rate(from_code, to_code)` (`core/usecases.py` lines 471–501):
the returned rate together with the reported `updated_at` (the direct
pair's stored timestamp when present, else the snapshot's refresh
time). A non-`CurrencyNotFoundError` exception from `get_currency` is
re-raised as `CurrencyNotFoundError` on the normalized argument. -/
def get_rate (snap : Snapshot) (now ttl : Int) (from_code to_code : String) :
    Except LedgerError (ℚ × Int) :=
  match getCurrency from_code with
  | .error (.currencyNotFound c) => .error (.currencyNotFound c)
  | .error _ => .error (.currencyNotFound (normStr from_code))
  | .ok f =>
    match getCurrency to_code with
    | .error (.currencyNotFound c) => .error (.currencyNotFound c)
    | .error _ => .error (.currencyNotFound (normStr to_code))
    | .ok t =>
      match ensureRatesFresh snap now ttl with
      | none => .error .staleRates
      | some (pairs, refreshedAt) =>
        match rateToBase pairs f t "USD" with
        | none => .error .rateUnavailable
        | some r =>
          let updatedAt :=
            match lookupA pairs (f ++ "_" ++ t) with
            | some e => e.updated_at
            | none => refreshedAt
          .ok (r, updatedAt)

/-! ### Measurement history (`parser_service/storage.py`) -/

/-- `_is_code`: 2–5 alphanumeric characters, no space, after
`strip().upper()`. -/
def isCode (code : String) : Bool :=
  let s := normStr code
  ¬ s.data.contains ' ' ∧ 2 ≤ s.length ∧ s.length ≤ 5 ∧ s.data.all Char.isAlphanum

/-- `_normalize_code` (defined on inputs passing `isCode`). -/
def normCode (code : String) : String := normStr code

/-- The canonical rendering of a (second-granularity, UTC) timestamp used
inside measurement ids; injective, standing for
`"%Y-%m-%dT%H:%M:%SZ"`. -/
def tsString (ts : Int) : String := toString ts

/-- `make_measurement_id(from, to, ts)` = `f"{f}_{t}_{ts}"` on the
normalized fields. -/
def make_measurement_id (f t : String) (ts : Int) : String :=
  normCode f ++ "_" ++ normCode t ++ "_" ++ tsString ts

/-- A record of the append-only history file (the free-form `meta` dict
carries no semantics and is omitted). -/
structure Measurement : Type where
  id : String
  from_currency : String
  to_currency : String
  rate : ℚ
  timestamp : Int
  source : String
deriving DecidableEq, Repr

/-- The argument of `append_measurement`: `id = none` models a record
without an `id` key (or with a blank one), for which the canonical id is
filled in. -/
structure MeasurementInput : Type where
  from_currency : String
  to_currency : String
  rate : ℚ
  timestamp : Int
  source : String
  id : Option String
deriving DecidableEq, Repr

/-- `validate_measurement`: code format, positive rate, non-blank source;
an explicit id must equal (after strip) the canonical id. `none` models
the raised `ValueError`. -/
def validate_measurement (r : MeasurementInput) : Option Measurement :=
  if ¬ isCode r.from_currency ∨ ¬ isCode r.to_currency then none
  else if r.rate ≤ 0 then none
  else if trimStr r.source = "" then none
  else
    let f := normCode r.from_currency
    let t := normCode r.to_currency
    let expected := make_measurement_id r.from_currency r.to_currency r.timestamp
    let valid : Measurement := ⟨expected, f, t, r.rate, r.timestamp, trimStr r.source⟩
    match r.id with
    | none => some valid
    | some i =>
      if trimStr i = "" then some valid
      else if trimStr i = expected then some valid else none

/-- `append_measurement(record)`: validate, then append only when the
canonical id is not already present; the `Bool` is the returned
`inserted` flag, and the returned list is the persisted history. -/
def append_measurement (history : List Measurement) (r : MeasurementInput) :
    Option (Bool × Measurement × List Measurement) :=
  match validate_measurement r with
  | none => none
  | some v =>
    if history.any (fun x => x.id = v.id) then some (false, v, history)
    else some (true, v, history ++ [v])

/-! ### Snapshot upsert (`upsert_rates_snapshot_pair`) -/

/-- `upsert_rates_snapshot_pair(from, to, rate, updated_at, source)`:
after validation, the pair is (over)written only when `updated_at` is
strictly newer than the stored timestamp; otherwise the stored snapshot
is returned untouched (the source skips `_write_json_atomic` on that
path). `none` models a raised `ValueError`. -/
def upsert_rates_snapshot_pair (snap : Snapshot) (from_currency to_currency : String)
    (rate : ℚ) (updated_at : Int) (source : String) : Option Snapshot :=
  if ¬ isCode from_currency ∨ ¬ isCode to_currency then none
  else if rate ≤ 0 then none
  else if trimStr source = "" then none
  else
    let key := normCode from_currency ++ "_" ++ normCode to_currency
    let entry : PairEntry := ⟨rate, updated_at, trimStr source⟩
    match lookupA snap.pairs key with
    | some current =>
      if updated_at ≤ current.updated_at then some snap
      else some { snap with pairs := setA snap.pairs key entry }
    | none => some { snap with pairs := setA snap.pairs key entry }

/-- `set_rates_last_refresh(ts)`: unconditionally stamp the snapshot. -/
def set_rates_last_refresh (snap : Snapshot) (ts : Int) : Snapshot :=
  { snap with lastRefresh := some ts }

/-- `is_rates_snapshot_stale()`. -/
def is_rates_snapshot_stale (snap : Snapshot) (now ttl : Int) : Bool :=
  match snap.lastRefresh with
  | none => true
  | some lr => ttl < now - lr

/-! ### Updater (`parser_service/updater.py`) -/

/-- One configured client together with the outcome of its
`fetch_rates()` call: `none` models a raised exception (including the
`ApiRequestError` for a non-dict result), `some data` the returned
pair-key → rate mapping. -/
structure ClientFetch : Type where
  name : String
  result : Option (List (String × ℚ))
deriving DecidableEq, Repr

/-- One entry of one client's result, merged into `(combined, per_source)`:
entries with a non-positive rate are skipped, surviving keys are
normalized, and later writes overwrite earlier ones for the same key. -/
def mergeEntry (name : String) (acc : List (String × ℚ) × List (String × String))
    (kv : String × ℚ) : List (String × ℚ) × List (String × String) :=
  if kv.2 ≤ 0 then acc
  else
    let key := normStr kv.1
    (setA acc.1 key kv.2, setA acc.2 key name)

/-- One client of the update loop: a raised fetch leaves the merge state
untouched (`continue`), a returned mapping is folded entry by entry. -/
def mergeClient (acc : List (String × ℚ) × List (String × String))
    (c : ClientFetch) : List (String × ℚ) × List (String × String) :=
  match c.result with
  | none => acc
  | some data => data.foldl (mergeEntry c.name) acc

/-- The merge loop of `run_update` over all configured sources. -/
def mergeClients (clients : List ClientFetch) :
    List (String × ℚ) × List (String × String) :=
  clients.foldl mergeClient ([], [])

/-- `_split_pair(pair_key)`: split on the first underscore after
normalizing; both halves are re-normalized and must be non-empty. -/
def splitFirstUS : List Char → Option (List Char × List Char)
  | [] => none
  | c :: cs =>
    if c = '_' then some ([], cs)
    else (splitFirstUS cs).map (fun ab => (c :: ab.1, ab.2))

def splitPair (pair_key : String) : Option (String × String) :=
  let s := normStr pair_key
  match splitFirstUS s.data with
  | none => none
  | some (a, b) =>
    let a' := normStr (String.mk a)
    let b' := normStr (String.mk b)
    if a' = "" ∨ b' = "" then none else some (a', b')

/-- Combined durable state of the parser service: the history file and
the snapshot file. -/
structure Store : Type where
  history : List Measurement
  snap : Snapshot
deriving DecidableEq, Repr

/-- The per-pair persistence step of `run_update`: best-effort history
append and best-effort snapshot upsert; an exception in either leg is
swallowed (`pass` / `continue`), and the two returned flags say whether
the history grew and whether the upsert call succeeded. -/
def persistPair (st : Store) (perSource : List (String × String)) (ts : Int)
    (kv : String × ℚ) : Store × Bool × Bool :=
  match splitPair kv.1 with
  | none => (st, false, false)
  | some (f, t) =>
    let source := (lookupA perSource kv.1).getD "UNKNOWN"
    let (history', inserted) :=
      match append_measurement st.history ⟨f, t, kv.2, ts, source, none⟩ with
      | some (i, _, h) => (h, i)
      | none => (st.history, false)
    let (snap', updated) :=
      match upsert_rates_snapshot_pair st.snap f t kv.2 ts source with
      | some s => (s, true)
      | none => (st.snap, false)
    (⟨history', snap'⟩, inserted, updated)

/-- Summary dict of a successful `run_update`. -/
structure UpdateSummary : Type where
  last_refresh : Int
  pairs_updated : Nat
  history_inserted : Nat
deriving DecidableEq, Repr

/-- `RatesUpdater.run_update()`: merge all client results; an empty
combined map raises `ApiRequestError("no rates collected")` (`none`
here) with nothing persisted; otherwise every merged pair is persisted
best-effort and `last_refresh` is stamped unconditionally. -/
def run_update (st : Store) (clients : List ClientFetch) (ts : Int) :
    Option (UpdateSummary × Store) :=
  let (combined, perSource) := mergeClients clients
  if combined = [] then none
  else
    let step := combined.foldl
      (fun acc kv =>
        let (st', ins, upd) := persistPair acc.1 perSource ts kv
        (st', acc.2.1 + (if ins then 1 else 0), acc.2.2 + (if upd then 1 else 0)))
      (st, 0, 0)
    let st' : Store := ⟨step.1.history, set_rates_last_refresh step.1.snap ts⟩
    some (⟨ts, step.2.2, step.2.1⟩, st')

/-! ### `Portfolio.get_total_value` (`core/models.py` lines 209–231) -/

/-- The hard-coded `exchange_rates` table inside `get_total_value`. -/
def builtinRates : List (String × ℚ) :=
  [("USD", 1), ("EUR", 11 / 10), ("BTC", 50000), ("ETH", 2500), ("RUB", 11 / 1000)]

/-- The summation loop: `total_usd += wallet.balance * exchange_rates[code]`,
raising on the first code outside the table. -/
def totalUsd : List (String × ℚ) → ℚ → Option ℚ
  | [], acc => some acc
  | (code, bal) :: ws, acc =>
    match lookupA builtinRates code with
    | none => none
    | some r => totalUsd ws (acc + bal * r)

/-- `Portfolio.get_total_value(base_currency)`: `none` models the raised
`ValueError` (blank base, base outside the table, or a held currency
outside the table). The stored rate snapshot, the conversion engine and
the freshness TTL are not consulted — the function takes none of them. -/
def get_total_value (wallets : List (String × ℚ)) (base_currency : String) :
    Option ℚ :=
  if trimStr base_currency = "" then none
  else
    let base := normStr base_currency
    match lookupA builtinRates base with
    | none => none
    | some br => (totalUsd wallets 0).map (fun tv => tv / br)

/-! ### Invariants -/

/-- All balances of one wallet map are non-negative. -/
def WNonneg (ws : List (String × ℚ)) : Prop := ∀ cw ∈ ws, 0 ≤ cw.2

/-- All balances of every persisted portfolio are non-negative — the
data-model invariant of §3 of the spec. -/
def NonnegState (ps : List PRecord) : Prop := ∀ p ∈ ps, WNonneg p.wallets

instance : DecidablePred WNonneg := fun ws =>
  inferInstanceAs (Decidable (∀ cw ∈ ws, 0 ≤ cw.2))

instance : DecidablePred NonnegState := fun ps =>
  inferInstanceAs (Decidable (∀ p ∈ ps, WNonneg p.wallets))

/-! ### Lemmas on the association-list operations -/

theorem lookupA_setA_self {α : Type} (l : List (String × α)) (k : String) (v : α) :
    lookupA (setA l k v) k = some v := by
  induction l with
  | nil => simp [setA, lookupA]
  | cons kv t ih =>
    by_cases h : kv.1 = k
    · simp [setA, lookupA, h]
    · simp [setA, lookupA, h, ih]

theorem lookupA_setA_ne {α : Type} (l : List (String × α)) {k k' : String} (v : α)
    (h : k' ≠ k) : lookupA (setA l k v) k' = lookupA l k' := by
  induction l with
  | nil => simp only [setA, lookupA, if_neg (Ne.symm h)]
  | cons kv t ih =>
    by_cases hk : kv.1 = k
    · have h2 : ¬ kv.1 = k' := by rw [hk]; exact Ne.symm h
      simp only [setA, if_pos hk, lookupA, if_neg (Ne.symm h), if_neg h2]
    · simp only [setA, if_neg hk, lookupA, ih]

theorem mem_setA {α : Type} {l : List (String × α)} {k : String} {v : α}
    {x : String × α} (hx : x ∈ setA l k v) : x = (k, v) ∨ x ∈ l := by
  induction l with
  | nil => simpa [setA] using hx
  | cons kv t ih =>
    by_cases h : kv.1 = k
    · simp only [setA, if_pos h, List.mem_cons] at hx
      rcases hx with h1 | h2
      · exact Or.inl h1
      · exact Or.inr (List.mem_cons_of_mem _ h2)
    · simp only [setA, if_neg h, List.mem_cons] at hx
      rcases hx with h1 | h2
      · exact Or.inr (h1 ▸ List.mem_cons_self _ _)
      · rcases ih h2 with h3 | h4
        · exact Or.inl h3
        · exact Or.inr (List.mem_cons_of_mem _ h4)

theorem lookupA_mem {α : Type} {l : List (String × α)} {k : String} {v : α}
    (h : lookupA l k = some v) : (k, v) ∈ l := by
  induction l with
  | nil => simp [lookupA] at h
  | cons kv t ih =>
    by_cases hk : kv.1 = k
    · simp only [lookupA, if_pos hk, Option.some.injEq] at h
      exact List.mem_cons.mpr (Or.inl (by cases kv; simp_all))
    · simp only [lookupA, if_neg hk] at h
      exact List.mem_cons_of_mem _ (ih h)

theorem WNonneg_setA {ws : List (String × ℚ)} {k : String} {v : ℚ}
    (hws : WNonneg ws) (hv : 0 ≤ v) : WNonneg (setA ws k v) := by
  intro cw hcw
  rcases mem_setA hcw with h | h
  · simpa [h] using hv
  · exact hws cw h

theorem walletBal_setA_self (ws : List (String × ℚ)) (k : String) (v : ℚ) :
    walletBal (setA ws k v) k = v := by
  unfold walletBal
  rw [lookupA_setA_self]
  rfl

theorem walletBal_setA_ne (ws : List (String × ℚ)) {k k' : String} (v : ℚ)
    (h : k' ≠ k) : walletBal (setA ws k v) k' = walletBal ws k' := by
  unfold walletBal
  rw [lookupA_setA_ne _ _ h]

theorem walletBal_nonneg {ws : List (String × ℚ)} (hws : WNonneg ws) (code : String) :
    0 ≤ walletBal ws code := by
  unfold walletBal
  cases h : lookupA ws code with
  | none => simp
  | some v => simpa using hws _ (lookupA_mem h)

theorem WNonneg_ensureUSD {ws : List (String × ℚ)} (hws : WNonneg ws) :
    WNonneg (ensureUSD ws) := by
  unfold ensureUSD
  cases lookupA ws "USD" with
  | some _ => exact hws
  | none =>
    intro cw hcw
    rcases List.mem_append.mp hcw with h | h
    · exact hws cw h
    · simp only [List.mem_singleton] at h
      simp [h]

theorem WNonneg_getWallets {ps : List PRecord} (hps : NonnegState ps) (uid : Int) :
    WNonneg (getWallets ps uid) := by
  unfold getWallets
  cases h : findP ps uid with
  | none =>
    intro cw hcw
    simp only [List.mem_singleton] at hcw
    simp [hcw]
  | some p =>
    have hp : p ∈ ps := by
      clear hps
      induction ps with
      | nil => simp [findP] at h
      | cons q t ih =>
        by_cases hq : q.user_id = uid
        · simp only [findP, if_pos hq, Option.some.injEq] at h
          exact h ▸ List.mem_cons_self _ _
        · simp only [findP, if_neg hq] at h
          exact List.mem_cons_of_mem _ (ih h)
    exact WNonneg_ensureUSD (hps p hp)

theorem mem_putPortfolio {ps : List PRecord} {uid : Int} {ws : List (String × ℚ)}
    {q : PRecord} (hq : q ∈ putPortfolio ps uid ws) : q = ⟨uid, ws⟩ ∨ q ∈ ps := by
  induction ps with
  | nil => simpa [putPortfolio] using hq
  | cons p t ih =>
    by_cases h : p.user_id = uid
    · simp only [putPortfolio, if_pos h, List.mem_cons] at hq
      rcases hq with h1 | h2
      · exact Or.inl h1
      · exact Or.inr (List.mem_cons_of_mem _ h2)
    · simp only [putPortfolio, if_neg h, List.mem_cons] at hq
      rcases hq with h1 | h2
      · exact Or.inr (h1 ▸ List.mem_cons_self _ _)
      · rcases ih h2 with h3 | h4
        · exact Or.inl h3
        · exact Or.inr (List.mem_cons_of_mem _ h4)

theorem NonnegState_putPortfolio {ps : List PRecord} {uid : Int}
    {ws : List (String × ℚ)} (hps : NonnegState ps) (hws : WNonneg ws) :
    NonnegState (putPortfolio ps uid ws) := by
  intro p hp
  rcases mem_putPortfolio hp with h | h
  · simpa [h] using hws
  · exact hps p h

theorem findP_putPortfolio (ps : List PRecord) (uid : Int) (ws : List (String × ℚ)) :
    findP (putPortfolio ps uid ws) uid = some ⟨uid, ws⟩ := by
  induction ps with
  | nil => simp [putPortfolio, findP]
  | cons p t ih =>
    by_cases h : p.user_id = uid
    · simp [putPortfolio, findP, h]
    · simp [putPortfolio, findP, h, ih]

theorem getWallets_putPortfolio {ps : List PRecord} {uid : Int}
    {ws : List (String × ℚ)} {u : ℚ} (h : lookupA ws "USD" = some u) :
    getWallets (putPortfolio ps uid ws) uid = ws := by
  simp [getWallets, findP_putPortfolio, ensureUSD, h]

/-! ### Positivity of resolved rates -/

theorem pairRate_pos {pairs : List (String × PairEntry)} {f t : String} {r : ℚ}
    (h : pairRate pairs f t = some r) : 0 < r := by
  unfold pairRate at h
  split at h
  · split at h
    · rename_i hv
      cases h
      exact hv
    · cases h
  · split at h
    · split at h
      · rename_i hv
        cases h
        exact div_pos one_pos hv
      · cases h
    · cases h

theorem rateToBase_pos {pairs : List (String × PairEntry)} {code base pivot : String}
    {r : ℚ} (h : rateToBase pairs code base pivot = some r) : 0 < r := by
  simp only [rateToBase] at h
  split at h
  · cases h; norm_num
  · split at h
    · exact pairRate_pos h
    · split at h
      · exact pairRate_pos h
      · split at h
        · rename_i cp bp hcp hbp
          split at h
          · cases h
          · cases h
            exact div_pos (pairRate_pos hcp) (pairRate_pos hbp)
        · cases h

/-! ### Evaluation lemmas for the ledger success paths -/

theorem buy_eval (ps : List PRecord) (snap : Snapshot) (now ttl uid : Int)
    (cS code : String) (amt rate : ℚ) (pairs : List (String × PairEntry)) (lr : Int)
    (huid : 0 < uid) (hamt : 0 < amt)
    (hcode : getCurrency cS = .ok code) (hne : code ≠ "USD")
    (hfresh : ensureRatesFresh snap now ttl = some (pairs, lr))
    (hrate : rateToBase pairs code "USD" "USD" = some rate)
    (hub : 0 ≤ walletBal (getWallets ps uid) "USD")
    (hcb : 0 ≤ walletBal (getWallets ps uid) code)
    (hsuff : amt * rate ≤ walletBal (getWallets ps uid) "USD") :
    buy ps snap now ttl uid cS amt =
      .ok (⟨code, amt, rate, amt * rate,
            walletBal (getWallets ps uid) code,
            walletBal (getWallets ps uid) code + amt,
            walletBal (getWallets ps uid) "USD",
            walletBal (getWallets ps uid) "USD" - amt * rate⟩,
        putPortfolio ps uid
          (setA (setA (getWallets ps uid) "USD"
              (walletBal (getWallets ps uid) "USD" - amt * rate))
            code (walletBal (getWallets ps uid) code + amt))) := by
  have hrpos : 0 < rate := rateToBase_pos hrate
  have hcpos : 0 < amt * rate := mul_pos hamt hrpos
  have hbal : walletBal (setA (getWallets ps uid) "USD"
      (walletBal (getWallets ps uid) "USD" - amt * rate)) code =
      walletBal (getWallets ps uid) code := by
    unfold walletBal
    rw [lookupA_setA_ne _ _ hne]
  simp only [buy, hcode, hfresh, hrate, if_neg (not_le.mpr huid),
    if_neg (not_le.mpr hamt), if_neg hne, if_neg (not_lt.mpr hub),
    if_neg (not_le.mpr hcpos), if_neg (not_lt.mpr hsuff), hbal,
    if_neg (not_lt.mpr hcb)]

theorem sell_eval (ps : List PRecord) (snap : Snapshot) (now ttl uid : Int)
    (cS code : String) (amt rate cbal : ℚ) (pairs : List (String × PairEntry)) (lr : Int)
    (huid : 0 < uid) (hamt : 0 < amt)
    (hcode : getCurrency cS = .ok code) (hne : code ≠ "USD")
    (hfresh : ensureRatesFresh snap now ttl = some (pairs, lr))
    (hrate : rateToBase pairs code "USD" "USD" = some rate)
    (hcb : lookupA (getWallets ps uid) code = some cbal)
    (hcb0 : 0 ≤ cbal) (hsuff : amt ≤ cbal)
    (hub : 0 ≤ walletBal (getWallets ps uid) "USD") :
    sell ps snap now ttl uid cS amt =
      .ok (⟨code, amt, rate, amt * rate, cbal, cbal - amt,
            walletBal (getWallets ps uid) "USD",
            walletBal (getWallets ps uid) "USD" + amt * rate⟩,
        putPortfolio ps uid
          (setA (setA (getWallets ps uid) code (cbal - amt)) "USD"
            (walletBal (getWallets ps uid) "USD" + amt * rate))) := by
  have hrpos : 0 < rate := rateToBase_pos hrate
  have hrev : 0 < amt * rate := mul_pos hamt hrpos
  have hbal : walletBal (setA (getWallets ps uid) code (cbal - amt)) "USD" =
      walletBal (getWallets ps uid) "USD" := by
    unfold walletBal
    rw [lookupA_setA_ne _ _ (Ne.symm hne)]
  simp only [sell, hcode, hfresh, hrate, hcb, if_neg (not_le.mpr huid),
    if_neg (not_le.mpr hamt), if_neg hne, if_neg (not_lt.mpr hcb0),
    if_neg (not_lt.mpr hsuff), hbal, if_neg (not_lt.mpr hub),
    if_neg (not_le.mpr hrev)]

/-! ### C2 — the spec's resolution order, as a second definition

`lookupDI` and `rateToBaseSpecF` transcribe §4.5 of the spec word for
word (resolution steps 1–4 and the direct/inverse lookup rule); the fuel
argument realizes the spec's self-recursion in step 4, whose depth is at
most two. -/

/-- Spec §4.5: look up `"{A}_{B}"`; if absent, look up `"{B}_{A}"` and
invert provided its rate is positive; fail if neither exists or an
intermediate rate is non-positive. -/
def lookupDI (pairs : List (String × PairEntry)) (a b : String) : Option ℚ :=
  match lookupA pairs (a ++ "_" ++ b) with
  | some v => if 0 < v.rate then some v.rate else none
  | none =>
    match lookupA pairs (b ++ "_" ++ a) with
    | some v => if 0 < v.rate then some (1 / v.rate) else none
    | none => none

/-- Spec §4.5 resolution order with explicit recursion fuel. -/
def rateToBaseSpecF (pairs : List (String × PairEntry)) :
    Nat → String → String → String → Option ℚ
  | 0, _, _, _ => none
  | Nat.succ n, c, b, pivot =>
    if c = b then some 1
    else if c = pivot then lookupDI pairs pivot b
    else if b = pivot then lookupDI pairs c pivot
    else
      match rateToBaseSpecF pairs n c pivot pivot,
          rateToBaseSpecF pairs n b pivot pivot with
      | some x, some y => if y = 0 then none else some (x / y)
      | _, _ => none

/-- Modelled from the spec: `rateToBase(code, base, pivot)` of §4.5 (two
fuel levels suffice: step 4 recurses only into steps 1–3). -/
def rateToBaseSpec (pairs : List (String × PairEntry)) (c b pivot : String) :
    Option ℚ :=
  rateToBaseSpecF pairs 2 c b pivot

theorem pairRate_eq_lookupDI : @pairRate = @lookupDI := rfl

/-- C2: for every pair map and every pair of codes, `_rate_to_base`
follows exactly the spec's resolution order — identity, pivot-to-base or
code-to-pivot direct/inverse lookup, else the two-hop quotient — with
failure exactly when a lookup is missing, an intermediate rate is
non-positive, or the two-hop denominator is zero. -/
theorem rate_resolution_matches_spec (pairs : List (String × PairEntry))
    (code base pivot : String) :
    rateToBase pairs code base pivot =
      rateToBaseSpec pairs (normStr code) (normStr base) pivot := by
  simp only [rateToBase, rateToBaseSpec]
  rw [show (2 : Nat) = Nat.succ 1 from rfl]
  by_cases h1 : normStr code = normStr base
  · simp [rateToBaseSpecF, h1]
  · by_cases h2 : normStr code = pivot
    · simp [rateToBaseSpecF, h1, h2, pairRate_eq_lookupDI]
    · by_cases h3 : normStr base = pivot
      · simp [rateToBaseSpecF, h1, h2, h3, pairRate_eq_lookupDI]
      · rw [show (1 : Nat) = Nat.succ 0 from rfl]
        simp only [rateToBaseSpecF, if_neg h1, if_neg h2, if_neg h3, if_pos rfl,
          pairRate_eq_lookupDI, if_true]

/-! ### C3 — the freshness gate -/

/-- The claim's staleness premise: no pairs at all, or a missing /
unparsable `last_refresh`, or one older than `now - TTL`. -/
def staleOrEmpty (snap : Snapshot) (now ttl : Int) : Prop :=
  snap.pairs = [] ∨ snap.lastRefresh = none ∨
    ∃ lr, snap.lastRefresh = some lr ∧ ttl < now - lr

theorem ensureRatesFresh_none {snap : Snapshot} {now ttl : Int}
    (h : staleOrEmpty snap now ttl) : ensureRatesFresh snap now ttl = none := by
  unfold ensureRatesFresh
  rcases h with h | h | ⟨lr, hlr, hage⟩
  · simp [h]
  · by_cases hp : snap.pairs = []
    · simp [hp]
    · simp [hp, h]
  · by_cases hp : snap.pairs = []
    · simp [hp]
    · simp [hp, hlr, if_pos hage]

/-- C3: on a stale or empty snapshot every conversion query — `get_rate`
and the conversions inside `buy` and `sell` — fails with the stale-cache
error before any pair is looked up (the conclusion holds for every pair
map the snapshot may carry), for all arguments passing the preceding
argument validation. -/
theorem stale_snapshot_blocks_conversions (snap : Snapshot) (now ttl : Int)
    (ps : List PRecord) (uid : Int) (fS tS cS f t code : String) (amt : ℚ)
    (hf : getCurrency fS = .ok f) (ht : getCurrency tS = .ok t)
    (hc : getCurrency cS = .ok code) (hcne : code ≠ "USD")
    (huid : 0 < uid) (hamt : 0 < amt)
    (hst : staleOrEmpty snap now ttl) :
    get_rate snap now ttl fS tS = .error .staleRates ∧
    buy ps snap now ttl uid cS amt = .error .staleRates ∧
    sell ps snap now ttl uid cS amt = .error .staleRates := by
  have hens := ensureRatesFresh_none hst
  refine ⟨?_, ?_, ?_⟩
  · simp only [get_rate, hf, ht, hens]
  · simp only [buy, hc, hens, if_neg (not_le.mpr huid), if_neg (not_le.mpr hamt),
      if_neg hcne]
  · simp only [sell, hc, hens, if_neg (not_le.mpr huid), if_neg (not_le.mpr hamt),
      if_neg hcne]

/-- C3 witness: a snapshot whose `last_refresh` is `2 × TTL` in the past
blocks `get_rate`, `buy` and `sell` even though it stores a usable pair. -/
theorem stale_snapshot_blocks_conversions_witness :
    get_rate ⟨[("BTC_USD", ⟨60000, 0, "x"⟩)], some 0⟩ 6000 3000 "BTC" "USD" =
        .error .staleRates ∧
    buy [] ⟨[("BTC_USD", ⟨60000, 0, "x"⟩)], some 0⟩ 6000 3000 1 "BTC" 2 =
        .error .staleRates ∧
    sell [] ⟨[("BTC_USD", ⟨60000, 0, "x"⟩)], some 0⟩ 6000 3000 1 "BTC" 2 =
        .error .staleRates :=
  stale_snapshot_blocks_conversions ⟨[("BTC_USD", ⟨60000, 0, "x"⟩)], some 0⟩ 6000 3000
    [] 1 "BTC" "USD" "BTC" "BTC" "USD" "BTC" 2
    (by decide) (by decide) (by decide) (by decide) (by decide) (by decide)
    (Or.inr (Or.inr ⟨0, rfl, by decide⟩))

/-! ### C1 — the buy contract -/

/-- C1: with valid arguments, a registered non-cash currency and fresh,
resolvable rates, `buy` either finds the cash balance strictly below
`amount * rate` and fails with `InsufficientFunds` leaving the persisted
portfolios untouched (no partial debit, no credit), or debits the cash
wallet by exactly the cost and credits `amount` to the `code` wallet,
a missing `code` wallet counting as zero. -/
theorem buy_debits_cash_credits_code (ps : List PRecord) (snap : Snapshot)
    (now ttl uid : Int) (cS code : String) (amt rate : ℚ)
    (pairs : List (String × PairEntry)) (lr : Int)
    (huid : 0 < uid) (hamt : 0 < amt)
    (hcode : getCurrency cS = .ok code) (hne : code ≠ "USD")
    (hfresh : ensureRatesFresh snap now ttl = some (pairs, lr))
    (hrate : rateToBase pairs code "USD" "USD" = some rate)
    (hnn : NonnegState ps) :
    (walletBal (getWallets ps uid) "USD" < amt * rate →
      buy ps snap now ttl uid cS amt =
        .error (.insufficientFunds
          (formatFixed (walletBal (getWallets ps uid) "USD") 2)
          (formatFixed (amt * rate) 2) "USD") ∧
      finalState ps (buy ps snap now ttl uid cS amt) = ps) ∧
    (amt * rate ≤ walletBal (getWallets ps uid) "USD" →
      ∃ r ps', buy ps snap now ttl uid cS amt = .ok (r, ps') ∧
        walletBal (getWallets ps' uid) "USD" =
          walletBal (getWallets ps uid) "USD" - amt * rate ∧
        walletBal (getWallets ps' uid) code =
          walletBal (getWallets ps uid) code + amt) := by
  have hws := WNonneg_getWallets hnn uid
  have hub := walletBal_nonneg hws "USD"
  have hcb := walletBal_nonneg hws code
  have hrpos := rateToBase_pos hrate
  have hcpos := mul_pos hamt hrpos
  constructor
  · intro hlt
    have hbuy : buy ps snap now ttl uid cS amt =
        .error (.insufficientFunds
          (formatFixed (walletBal (getWallets ps uid) "USD") 2)
          (formatFixed (amt * rate) 2) "USD") := by
      simp only [buy, hcode, hfresh, hrate, if_neg (not_le.mpr huid),
        if_neg (not_le.mpr hamt), if_neg hne, if_neg (not_lt.mpr hub),
        if_neg (not_le.mpr hcpos), if_pos hlt]
    exact ⟨hbuy, by rw [hbuy]; rfl⟩
  · intro hsuff
    have husd2 : lookupA
        (setA (setA (getWallets ps uid) "USD"
            (walletBal (getWallets ps uid) "USD" - amt * rate))
          code (walletBal (getWallets ps uid) code + amt)) "USD" =
        some (walletBal (getWallets ps uid) "USD" - amt * rate) := by
      rw [lookupA_setA_ne _ _ (Ne.symm hne), lookupA_setA_self]
    refine ⟨_, _,
      buy_eval ps snap now ttl uid cS code amt rate pairs lr huid hamt hcode hne
        hfresh hrate hub hcb hsuff, ?_, ?_⟩
    · rw [getWallets_putPortfolio husd2, walletBal_setA_ne _ _ (Ne.symm hne),
        walletBal_setA_self]
    · rw [getWallets_putPortfolio husd2, walletBal_setA_self]

/-- C1 witness: user 1 holding `1000 USD` against a fresh `BTC_USD`
snapshot. -/
theorem buy_debits_cash_credits_code_witness :
    (0 : Int) < 1 ∧ (0 : ℚ) < 2 ∧
    NonnegState [⟨1, [("USD", 1000)]⟩] ∧
    ((walletBal (getWallets [⟨1, [("USD", 1000)]⟩] 1) "USD" < 2 * 60000 →
      buy [⟨1, [("USD", 1000)]⟩] ⟨[("BTC_USD", ⟨60000, 900, "x"⟩)], some 900⟩
          1000 3000 1 "BTC" 2 =
        .error (.insufficientFunds
          (formatFixed (walletBal (getWallets [⟨1, [("USD", 1000)]⟩] 1) "USD") 2)
          (formatFixed ((2 : ℚ) * 60000) 2) "USD") ∧
      finalState [⟨1, [("USD", 1000)]⟩]
        (buy [⟨1, [("USD", 1000)]⟩] ⟨[("BTC_USD", ⟨60000, 900, "x"⟩)], some 900⟩
          1000 3000 1 "BTC" 2) = [⟨1, [("USD", 1000)]⟩]) ∧
    ((2 : ℚ) * 60000 ≤ walletBal (getWallets [⟨1, [("USD", 1000)]⟩] 1) "USD" →
      ∃ r ps', buy [⟨1, [("USD", 1000)]⟩] ⟨[("BTC_USD", ⟨60000, 900, "x"⟩)], some 900⟩
          1000 3000 1 "BTC" 2 = .ok (r, ps') ∧
        walletBal (getWallets ps' 1) "USD" =
          walletBal (getWallets [⟨1, [("USD", 1000)]⟩] 1) "USD" - 2 * 60000 ∧
        walletBal (getWallets ps' 1) "BTC" =
          walletBal (getWallets [⟨1, [("USD", 1000)]⟩] 1) "BTC" + 2)) :=
  ⟨by decide, by decide, by decide,
    buy_debits_cash_credits_code [⟨1, [("USD", 1000)]⟩]
      ⟨[("BTC_USD", ⟨60000, 900, "x"⟩)], some 900⟩ 1000 3000 1 "BTC" "BTC" 2 60000
      [("BTC_USD", ⟨60000, 900, "x"⟩)] 900
      (by decide) (by decide) (by decide) (by decide) (by decide) (by decide)
      (by decide)⟩

/-! ### C5 — the sell failure contract -/

/-- C5: with valid arguments and fresh, resolvable rates, `sell` fails
with `InsufficientFunds` both when the `code` wallet is absent (quoting
a zero available balance) and when its balance is strictly below
`amount` (quoting the rendered actual balance); in both cases the
persisted portfolios are untouched. -/
theorem sell_insufficient_quotes_balance (ps : List PRecord) (snap : Snapshot)
    (now ttl uid : Int) (cS code : String) (amt rate : ℚ)
    (pairs : List (String × PairEntry)) (lr : Int)
    (huid : 0 < uid) (hamt : 0 < amt)
    (hcode : getCurrency cS = .ok code) (hne : code ≠ "USD")
    (hfresh : ensureRatesFresh snap now ttl = some (pairs, lr))
    (hrate : rateToBase pairs code "USD" "USD" = some rate)
    (hnn : NonnegState ps) :
    (lookupA (getWallets ps uid) code = none →
      sell ps snap now ttl uid cS amt =
        .error (.insufficientFunds
          (if code = "BTC" ∨ code = "ETH" then "0.0000" else "0.00")
          (formatFixed amt (displayDp code)) code) ∧
      finalState ps (sell ps snap now ttl uid cS amt) = ps) ∧
    (∀ bal, lookupA (getWallets ps uid) code = some bal → bal < amt →
      sell ps snap now ttl uid cS amt =
        .error (.insufficientFunds (formatFixed bal (displayDp code))
          (formatFixed amt (displayDp code)) code) ∧
      finalState ps (sell ps snap now ttl uid cS amt) = ps) := by
  have hws := WNonneg_getWallets hnn uid
  constructor
  · intro hmiss
    have hsell : sell ps snap now ttl uid cS amt =
        .error (.insufficientFunds
          (if code = "BTC" ∨ code = "ETH" then "0.0000" else "0.00")
          (formatFixed amt (displayDp code)) code) := by
      simp only [sell, hcode, hfresh, hrate, hmiss, if_neg (not_le.mpr huid),
        if_neg (not_le.mpr hamt), if_neg hne]
    exact ⟨hsell, by rw [hsell]; rfl⟩
  · intro bal hbal hlt
    have hbal0 : 0 ≤ bal := hws _ (lookupA_mem hbal)
    have hsell : sell ps snap now ttl uid cS amt =
        .error (.insufficientFunds (formatFixed bal (displayDp code))
          (formatFixed amt (displayDp code)) code) := by
      simp only [sell, hcode, hfresh, hrate, hbal, if_neg (not_le.mpr huid),
        if_neg (not_le.mpr hamt), if_neg hne, if_neg (not_lt.mpr hbal0),
        if_pos hlt]
    exact ⟨hsell, by rw [hsell]; rfl⟩

/-- C5 witness: user 1 holds `1 BTC` and sells `2 BTC`; and a user with
no BTC wallet at all gets the zero-balance quote. -/
theorem sell_insufficient_quotes_balance_witness :
    (lookupA (getWallets [⟨1, [("USD", 5), ("BTC", 1)]⟩] 1) "BTC" = some 1) ∧
    ((1 : ℚ) < 2) ∧
    (sell [⟨1, [("USD", 5), ("BTC", 1)]⟩] ⟨[("BTC_USD", ⟨60000, 900, "x"⟩)], some 900⟩
        1000 3000 1 "BTC" 2 =
      .error (.insufficientFunds (formatFixed 1 (displayDp "BTC"))
        (formatFixed 2 (displayDp "BTC")) "BTC") ∧
      finalState [⟨1, [("USD", 5), ("BTC", 1)]⟩]
        (sell [⟨1, [("USD", 5), ("BTC", 1)]⟩]
          ⟨[("BTC_USD", ⟨60000, 900, "x"⟩)], some 900⟩ 1000 3000 1 "BTC" 2) =
        [⟨1, [("USD", 5), ("BTC", 1)]⟩]) :=
  ⟨by decide, by decide,
    (sell_insufficient_quotes_balance [⟨1, [("USD", 5), ("BTC", 1)]⟩]
      ⟨[("BTC_USD", ⟨60000, 900, "x"⟩)], some 900⟩ 1000 3000 1 "BTC" "BTC" 2 60000
      [("BTC_USD", ⟨60000, 900, "x"⟩)] 900
      (by decide) (by decide) (by decide) (by decide) (by decide) (by decide)
      (by decide)).2 1 (by decide) (by decide)⟩

/-! ### C4 — non-negative balances are preserved -/

theorem nonneg_finalState {β : Type} {ps : List PRecord} (hnn : NonnegState ps)
    (r : Except LedgerError (β × List PRecord))
    (h : ∀ b ps', r = .ok (b, ps') → NonnegState ps') :
    NonnegState (finalState ps r) := by
  cases r with
  | error e => exact hnn
  | ok v =>
    obtain ⟨b, ps'⟩ := v
    exact h b ps' rfl

/-- C4: starting from a portfolio state with only non-negative balances,
each of the four ledger operations leaves the persisted state with only
non-negative balances whether it succeeds or fails, and a cash
withdrawal beyond the cash balance can never succeed. -/
theorem ledger_preserves_nonneg (ps : List PRecord) (snap : Snapshot)
    (now ttl uid : Int) (cS : String) (amt : ℚ) (hnn : NonnegState ps) :
    NonnegState (finalState ps (buy ps snap now ttl uid cS amt)) ∧
    NonnegState (finalState ps (sell ps snap now ttl uid cS amt)) ∧
    NonnegState (finalState ps (deposit_usd ps uid amt)) ∧
    NonnegState (finalState ps (cash_out_usd ps uid amt)) ∧
    (walletBal (getWallets ps uid) "USD" < amt →
      ∀ out, cash_out_usd ps uid amt ≠ .ok out) := by
  refine ⟨?_, ?_, ?_, ?_, ?_⟩
  · refine nonneg_finalState hnn _ ?_
    intro b ps' h
    simp only [buy] at h
    repeat' split at h
    any_goals cases h
    exact NonnegState_putPortfolio hnn
      (WNonneg_setA (WNonneg_setA (WNonneg_getWallets hnn uid) (by linarith))
        (by linarith))
  · refine nonneg_finalState hnn _ ?_
    intro b ps' h
    simp only [sell] at h
    repeat' split at h
    any_goals cases h
    exact NonnegState_putPortfolio hnn
      (WNonneg_setA (WNonneg_setA (WNonneg_getWallets hnn uid) (by linarith))
        (by linarith))
  · refine nonneg_finalState hnn _ ?_
    intro b ps' h
    simp only [deposit_usd] at h
    repeat' split at h
    any_goals cases h
    exact NonnegState_putPortfolio hnn
      (WNonneg_setA (WNonneg_getWallets hnn uid) (by linarith))
  · refine nonneg_finalState hnn _ ?_
    intro b ps' h
    simp only [cash_out_usd] at h
    repeat' split at h
    any_goals cases h
    exact NonnegState_putPortfolio hnn
      (WNonneg_setA (WNonneg_getWallets hnn uid) (by linarith))
  · intro hlt out hok
    simp only [cash_out_usd] at hok
    repeat' split at hok
    any_goals cases hok

/-- C4 witness: a two-user state with concrete balances. -/
theorem ledger_preserves_nonneg_witness :
    NonnegState (finalState [⟨1, [("USD", 1000)]⟩, ⟨2, [("BTC", 3)]⟩]
      (buy [⟨1, [("USD", 1000)]⟩, ⟨2, [("BTC", 3)]⟩]
        ⟨[("BTC_USD", ⟨60000, 900, "x"⟩)], some 900⟩ 1000 3000 1 "BTC" 2)) ∧
    NonnegState (finalState [⟨1, [("USD", 1000)]⟩, ⟨2, [("BTC", 3)]⟩]
      (sell [⟨1, [("USD", 1000)]⟩, ⟨2, [("BTC", 3)]⟩]
        ⟨[("BTC_USD", ⟨60000, 900, "x"⟩)], some 900⟩ 1000 3000 1 "BTC" 2)) ∧
    NonnegState (finalState [⟨1, [("USD", 1000)]⟩, ⟨2, [("BTC", 3)]⟩]
      (deposit_usd [⟨1, [("USD", 1000)]⟩, ⟨2, [("BTC", 3)]⟩] 1 2)) ∧
    NonnegState (finalState [⟨1, [("USD", 1000)]⟩, ⟨2, [("BTC", 3)]⟩]
      (cash_out_usd [⟨1, [("USD", 1000)]⟩, ⟨2, [("BTC", 3)]⟩] 1 2)) ∧
    (walletBal (getWallets [⟨1, [("USD", 1000)]⟩, ⟨2, [("BTC", 3)]⟩] 1) "USD" < 2 →
      ∀ out, cash_out_usd [⟨1, [("USD", 1000)]⟩, ⟨2, [("BTC", 3)]⟩] 1 2 ≠ .ok out) :=
  ledger_preserves_nonneg [⟨1, [("USD", 1000)]⟩, ⟨2, [("BTC", 3)]⟩]
    ⟨[("BTC_USD", ⟨60000, 900, "x"⟩)], some 900⟩ 1000 3000 1 "BTC" 2 (by decide)

/-! ### C9 — buy-then-sell round trip at a constant rate -/

/-- C9: with fresh rates, a registered non-cash currency and sufficient
cash, `buy(code, amount)` followed by `sell(code, amount)` against the
same snapshot restores the cash balance exactly (the model computes in
exact rationals, so the float-tolerance phrasing of the spec is met with
zero error). -/
theorem buy_sell_roundtrip (ps : List PRecord) (snap : Snapshot)
    (now ttl uid : Int) (cS code : String) (amt rate : ℚ)
    (pairs : List (String × PairEntry)) (lr : Int)
    (huid : 0 < uid) (hamt : 0 < amt)
    (hcode : getCurrency cS = .ok code) (hne : code ≠ "USD")
    (hfresh : ensureRatesFresh snap now ttl = some (pairs, lr))
    (hrate : rateToBase pairs code "USD" "USD" = some rate)
    (hnn : NonnegState ps)
    (hsuff : amt * rate ≤ walletBal (getWallets ps uid) "USD") :
    ∃ r1 ps1 r2 ps2,
      buy ps snap now ttl uid cS amt = .ok (r1, ps1) ∧
      sell ps1 snap now ttl uid cS amt = .ok (r2, ps2) ∧
      walletBal (getWallets ps2 uid) "USD" = walletBal (getWallets ps uid) "USD" := by
  have hws := WNonneg_getWallets hnn uid
  have hub := walletBal_nonneg hws "USD"
  have hcb := walletBal_nonneg hws code
  have hbuy := buy_eval ps snap now ttl uid cS code amt rate pairs lr huid hamt
    hcode hne hfresh hrate hub hcb hsuff
  have husd2 : lookupA
      (setA (setA (getWallets ps uid) "USD"
          (walletBal (getWallets ps uid) "USD" - amt * rate))
        code (walletBal (getWallets ps uid) code + amt)) "USD" =
      some (walletBal (getWallets ps uid) "USD" - amt * rate) := by
    rw [lookupA_setA_ne _ _ (Ne.symm hne), lookupA_setA_self]
  have hw1 : getWallets (putPortfolio ps uid
      (setA (setA (getWallets ps uid) "USD"
          (walletBal (getWallets ps uid) "USD" - amt * rate))
        code (walletBal (getWallets ps uid) code + amt))) uid =
      setA (setA (getWallets ps uid) "USD"
          (walletBal (getWallets ps uid) "USD" - amt * rate))
        code (walletBal (getWallets ps uid) code + amt) :=
    getWallets_putPortfolio husd2
  have hcb1 : lookupA (getWallets (putPortfolio ps uid
      (setA (setA (getWallets ps uid) "USD"
          (walletBal (getWallets ps uid) "USD" - amt * rate))
        code (walletBal (getWallets ps uid) code + amt))) uid) code =
      some (walletBal (getWallets ps uid) code + amt) := by
    rw [hw1, lookupA_setA_self]
  have hub1eq : walletBal (getWallets (putPortfolio ps uid
      (setA (setA (getWallets ps uid) "USD"
          (walletBal (getWallets ps uid) "USD" - amt * rate))
        code (walletBal (getWallets ps uid) code + amt))) uid) "USD" =
      walletBal (getWallets ps uid) "USD" - amt * rate := by
    rw [hw1, walletBal_setA_ne _ _ (Ne.symm hne), walletBal_setA_self]
  have hsell := sell_eval (putPortfolio ps uid
      (setA (setA (getWallets ps uid) "USD"
          (walletBal (getWallets ps uid) "USD" - amt * rate))
        code (walletBal (getWallets ps uid) code + amt)))
    snap now ttl uid cS code amt rate
    (walletBal (getWallets ps uid) code + amt) pairs lr huid hamt hcode hne
    hfresh hrate hcb1 (by linarith) (by linarith) (by rw [hub1eq]; linarith)
  refine ⟨_, _, _, _, hbuy, hsell, ?_⟩
  rw [getWallets_putPortfolio (lookupA_setA_self _ _ _), walletBal_setA_self,
    hub1eq]
  ring

/-! ### C6 — empty merge aborts the update -/

theorem foldl_mergeEntry_nonpos (name : String) (data : List (String × ℚ))
    (h : ∀ kv ∈ data, kv.2 ≤ 0) :
    ∀ acc, data.foldl (mergeEntry name) acc = acc := by
  induction data with
  | nil => intro acc; rfl
  | cons kv t ih =>
    intro acc
    have hkv : kv.2 ≤ 0 := h kv (List.mem_cons_self _ _)
    simp only [List.foldl_cons, mergeEntry, if_pos hkv]
    exact ih (fun x hx => h x (List.mem_cons_of_mem _ hx)) acc

theorem foldl_mergeClient_id (clients : List ClientFetch)
    (h : ∀ c ∈ clients, ∀ d, c.result = some d → ∀ kv ∈ d, kv.2 ≤ 0) :
    ∀ acc, clients.foldl mergeClient acc = acc := by
  induction clients with
  | nil => intro acc; rfl
  | cons c t ih =>
    intro acc
    have hc : mergeClient acc c = acc := by
      unfold mergeClient
      cases hr : c.result with
      | none => rfl
      | some d =>
        exact foldl_mergeEntry_nonpos c.name d
          (h c (List.mem_cons_self _ _) d hr) acc
    rw [List.foldl_cons, hc]
    exact ih (fun x hx => h x (List.mem_cons_of_mem _ hx)) acc

/-- C6: when the merged pair map is empty — in particular whenever every
configured source either raised or returned only unusable (non-positive)
rates — `run_update` aborts with the no-rates-collected error and
returns no new store: no history append, no snapshot upsert and no
`last_refresh` stamp happen. -/
theorem run_update_no_rates_collected (st : Store) (clients : List ClientFetch)
    (ts : Int) :
    ((mergeClients clients).1 = [] → run_update st clients ts = none) ∧
    ((∀ c ∈ clients, ∀ d, c.result = some d → ∀ kv ∈ d, kv.2 ≤ 0) →
      run_update st clients ts = none) := by
  have hbase : (mergeClients clients).1 = [] → run_update st clients ts = none := by
    intro h1
    rcases hmc : mergeClients clients with ⟨c, p⟩
    rw [hmc] at h1
    simp only at h1
    subst h1
    simp [run_update, hmc]
  refine ⟨hbase, fun h => hbase ?_⟩
  have hm : mergeClients clients = ([], []) :=
    foldl_mergeClient_id clients h ([], [])
  rw [hm]

/-- C6 witness: one raising source and one source returning only
non-positive rates leave the merged map empty, and the update yields no
new store. -/
theorem run_update_no_rates_collected_witness :
    (mergeClients [⟨"s1", none⟩, ⟨"s2", some [("BTC_USD", -3), ("ETH_USD", 0)]⟩]).1
        = [] ∧
    run_update ⟨[], ⟨[], none⟩⟩
      [⟨"s1", none⟩, ⟨"s2", some [("BTC_USD", -3), ("ETH_USD", 0)]⟩] 1000 = none :=
  ⟨by decide,
    (run_update_no_rates_collected ⟨[], ⟨[], none⟩⟩
      [⟨"s1", none⟩, ⟨"s2", some [("BTC_USD", -3), ("ETH_USD", 0)]⟩] 1000).1
      (by decide)⟩

/-! ### C7 — the monotonic-time upsert guard -/

/-- C7: with valid arguments, `upsert_rates_snapshot_pair` leaves the
stored snapshot completely unchanged when `updated_at` is older than or
equal to the stored pair's timestamp, and (over)writes the pair exactly
when `updated_at` is strictly newer or no pair is stored under the
key. -/
theorem upsert_pair_monotonic (snap : Snapshot) (fS tS : String) (rate : ℚ)
    (ua : Int) (src : String)
    (hf : isCode fS = true) (ht : isCode tS = true)
    (hr : 0 < rate) (hs : trimStr src ≠ "") :
    (∀ cur, lookupA snap.pairs (normCode fS ++ "_" ++ normCode tS) = some cur →
      (ua ≤ cur.updated_at →
        upsert_rates_snapshot_pair snap fS tS rate ua src = some snap) ∧
      (cur.updated_at < ua →
        upsert_rates_snapshot_pair snap fS tS rate ua src =
          some { snap with pairs := (setA snap.pairs
            (normCode fS ++ "_" ++ normCode tS) ⟨rate, ua, trimStr src⟩) })) ∧
    (lookupA snap.pairs (normCode fS ++ "_" ++ normCode tS) = none →
      upsert_rates_snapshot_pair snap fS tS rate ua src =
        some { snap with pairs := (setA snap.pairs
          (normCode fS ++ "_" ++ normCode tS) ⟨rate, ua, trimStr src⟩) }) := by
  have hval : ¬ (¬ isCode fS = true ∨ ¬ isCode tS = true) := by simp [hf, ht]
  constructor
  · intro cur hcur
    constructor
    · intro hle
      simp only [upsert_rates_snapshot_pair, if_neg hval,
        if_neg (not_le.mpr hr), if_neg hs, hcur, if_pos hle]
    · intro hgt
      simp only [upsert_rates_snapshot_pair, if_neg hval,
        if_neg (not_le.mpr hr), if_neg hs, hcur, if_neg (not_le.mpr hgt)]
  · intro hnone
    simp only [upsert_rates_snapshot_pair, if_neg hval,
      if_neg (not_le.mpr hr), if_neg hs, hnone]

/-- C7 witness: a stored `BTC_USD` pair at time 100 and calls with
`updated_at` 50 (no-op) and 200 (overwrite). -/
theorem upsert_pair_monotonic_witness :
    (lookupA (Snapshot.mk [("BTC_USD", ⟨5, 100, "s"⟩)] (some 100)).pairs
        (normCode "BTC" ++ "_" ++ normCode "USD") = some ⟨5, 100, "s"⟩) ∧
    ((50 : Int) ≤ (100 : Int)) ∧
    (upsert_rates_snapshot_pair ⟨[("BTC_USD", ⟨5, 100, "s"⟩)], some 100⟩
        "BTC" "USD" 7 50 "t" = some ⟨[("BTC_USD", ⟨5, 100, "s"⟩)], some 100⟩) :=
  ⟨by decide, by decide,
    (((upsert_pair_monotonic ⟨[("BTC_USD", ⟨5, 100, "s"⟩)], some 100⟩
        "BTC" "USD" 7 50 "t" (by decide) (by decide) (by decide) (by decide)).1
      ⟨5, 100, "s"⟩ (by decide)).1 (by decide))⟩

/-! ### C8 — idempotent history append -/

/-- C8: a valid measurement whose canonical id is not yet in the history
is appended exactly once with `inserted = true`; appending the same
record again returns `inserted = false` and leaves the history — length
and contents — unchanged. -/
theorem append_measurement_idempotent (history : List Measurement)
    (r : MeasurementInput) (v : Measurement)
    (hv : validate_measurement r = some v)
    (hfresh : history.any (fun x => x.id = v.id) = false) :
    append_measurement history r = some (true, v, history ++ [v]) ∧
    append_measurement (history ++ [v]) r = some (false, v, history ++ [v]) ∧
    (history ++ [v]).length = history.length + 1 := by
  refine ⟨?_, ?_, by simp⟩
  · simp only [append_measurement, hv, hfresh]
    rfl
  · have hany : (history ++ [v]).any (fun x => x.id = v.id) = true := by
      simp [List.any_append]
    simp only [append_measurement, hv, hany]
    rfl

/-- C8 witness: the `BTC_USD` measurement at time 900 appended to an
empty history, twice. -/
theorem append_measurement_idempotent_witness :
    validate_measurement ⟨"BTC", "USD", 5, 900, "src", none⟩ =
      some ⟨"BTC_USD_900", "BTC", "USD", 5, 900, "src"⟩ ∧
    append_measurement [] ⟨"BTC", "USD", 5, 900, "src", none⟩ =
      some (true, ⟨"BTC_USD_900", "BTC", "USD", 5, 900, "src"⟩,
        [⟨"BTC_USD_900", "BTC", "USD", 5, 900, "src"⟩]) ∧
    append_measurement [⟨"BTC_USD_900", "BTC", "USD", 5, 900, "src"⟩]
        ⟨"BTC", "USD", 5, 900, "src", none⟩ =
      some (false, ⟨"BTC_USD_900", "BTC", "USD", 5, 900, "src"⟩,
        [⟨"BTC_USD_900", "BTC", "USD", 5, 900, "src"⟩]) := by
  have h := append_measurement_idempotent [] ⟨"BTC", "USD", 5, 900, "src", none⟩
    ⟨"BTC_USD_900", "BTC", "USD", 5, 900, "src"⟩ (by decide) (by decide)
  exact ⟨by decide, by simpa using h.1, by simpa using h.2.1⟩

/-! ### C10 — the static valuation table -/

theorem totalUsd_none {ws : List (String × ℚ)}
    (h : ∃ cw ∈ ws, lookupA builtinRates cw.1 = none) :
    ∀ acc, totalUsd ws acc = none := by
  induction ws with
  | nil => simp at h
  | cons hd t ih =>
    intro acc
    obtain ⟨x, hx, hxn⟩ := h
    rcases List.mem_cons.mp hx with h1 | h2
    · subst h1
      obtain ⟨c, b⟩ := x
      simp only at hxn
      simp only [totalUsd, hxn]
    · obtain ⟨c, b⟩ := hd
      cases hcw : lookupA builtinRates c with
      | none => simp only [totalUsd, hcw]
      | some rv =>
        simp only [totalUsd, hcw]
        exact ih ⟨x, h2, hxn⟩ _

/-- C10: `Portfolio.get_total_value` is computed entirely from the
hard-coded five-entry rate table — the function consults neither the
rate snapshot nor the conversion engine nor any TTL (none of them are
inputs) — and it errors on any base currency or held currency outside
that table instead of returning a value. -/
theorem get_total_value_uses_builtin_table (ws : List (String × ℚ))
    (baseS : String) :
    (trimStr baseS = "" → get_total_value ws baseS = none) ∧
    (lookupA builtinRates (normStr baseS) = none → get_total_value ws baseS = none) ∧
    (∀ br, lookupA builtinRates (normStr baseS) = some br →
      ((∃ cw ∈ ws, lookupA builtinRates cw.1 = none) →
        get_total_value ws baseS = none) ∧
      ((∀ cw ∈ ws, (lookupA builtinRates cw.1).isSome) →
        get_total_value ws baseS = (totalUsd ws 0).map (fun tv => tv / br))) := by
  refine ⟨?_, ?_, ?_⟩
  · intro h
    simp [get_total_value, h]
  · intro h
    by_cases h0 : trimStr baseS = ""
    · simp [get_total_value, h0]
    · simp [get_total_value, h0, h]
  · intro br hbr
    have hne : trimStr baseS ≠ "" := by
      intro h0
      have he : normStr baseS = "" := by
        rw [normStr, h0]
        rfl
      rw [he] at hbr
      simp [builtinRates, lookupA] at hbr
    constructor
    · intro hmiss
      simp [get_total_value, hne, hbr, totalUsd_none hmiss]
    · intro _
      simp [get_total_value, hne, hbr]

/-- C10 witness: a wallet of `2 BTC` valued in `USD` via the table. -/
theorem get_total_value_uses_builtin_table_witness :
    lookupA builtinRates (normStr "USD") = some 1 ∧
    (∀ cw ∈ [("BTC", (2 : ℚ))], (lookupA builtinRates cw.1).isSome) ∧
    get_total_value [("BTC", (2 : ℚ))] "USD" =
      (totalUsd [("BTC", (2 : ℚ))] 0).map (fun tv => tv / 1) :=
  ⟨by decide, by decide,
    ((get_total_value_uses_builtin_table [("BTC", 2)] "USD").2.2 1 (by decide)).2
      (by decide)⟩

/-- C9 witness: user 1 with `200000 USD` buys and sells `2 BTC` at rate
`60000`. -/
theorem buy_sell_roundtrip_witness :
    (2 : ℚ) * 60000 ≤ walletBal (getWallets [⟨1, [("USD", 200000)]⟩] 1) "USD" ∧
    ∃ r1 ps1 r2 ps2,
      buy [⟨1, [("USD", 200000)]⟩] ⟨[("BTC_USD", ⟨60000, 900, "x"⟩)], some 900⟩
          1000 3000 1 "BTC" 2 = .ok (r1, ps1) ∧
      sell ps1 ⟨[("BTC_USD", ⟨60000, 900, "x"⟩)], some 900⟩ 1000 3000 1 "BTC" 2 =
        .ok (r2, ps2) ∧
      walletBal (getWallets ps2 1) "USD" =
        walletBal (getWallets [⟨1, [("USD", 200000)]⟩] 1) "USD" := by
  have hsuff : (2 : ℚ) * 60000 ≤
      walletBal (getWallets [⟨1, [("USD", 200000)]⟩] 1) "USD" := by
    have hw : walletBal (getWallets [⟨1, [("USD", 200000)]⟩] 1) "USD" = 200000 := by
      decide
    rw [hw]
    norm_num
  exact ⟨hsuff,
    buy_sell_roundtrip [⟨1, [("USD", 200000)]⟩]
      ⟨[("BTC_USD", ⟨60000, 900, "x"⟩)], some 900⟩ 1000 3000 1 "BTC" "BTC" 2 60000
      [("BTC_USD", ⟨60000, 900, "x"⟩)] 900
      (by decide) (by decide) (by decide) (by decide) (by decide) (by decide)
      (by decide) hsuff⟩

end ValutaTrade
